import Mathlib

/-!
Verification of the AIDivideMovie video-splitting service, a shallow
embedding of `src/services/video_splitter.py`.

Python strings are embedded as `List Char` (`Str` below).  The ASCII
fragments of the Python functions `str.strip`, `str.lower`, `str.split`,
`int(<str>)` and of the regular expressions used by the source are
modelled directly; the source never depends on non-ASCII behaviour of
those primitives.  Python floats returned by `_time_to_seconds` are
integer-valued on every path, so they are embedded as `Int`.
-/

namespace VideoSplitter

abbrev Str := List Char

/-- The Python whitespace class used by `str.strip` and by `\s`
(ASCII part): space, tab, newline, carriage return, vertical tab,
form feed. -/
def isSpaceB (c : Char) : Bool :=
  c == ' ' || c == '\t' || c == '\n' || c == '\r' || c == '\x0b' || c == '\x0c'

/-- ASCII model of `str.lower` on one character. -/
def lowerChar (c : Char) : Char :=
  if c == 'A' then 'a' else if c == 'B' then 'b' else if c == 'C' then 'c'
  else if c == 'D' then 'd' else if c == 'E' then 'e' else if c == 'F' then 'f'
  else if c == 'G' then 'g' else if c == 'H' then 'h' else if c == 'I' then 'i'
  else if c == 'J' then 'j' else if c == 'K' then 'k' else if c == 'L' then 'l'
  else if c == 'M' then 'm' else if c == 'N' then 'n' else if c == 'O' then 'o'
  else if c == 'P' then 'p' else if c == 'Q' then 'q' else if c == 'R' then 'r'
  else if c == 'S' then 's' else if c == 'T' then 't' else if c == 'U' then 'u'
  else if c == 'V' then 'v' else if c == 'W' then 'w' else if c == 'X' then 'x'
  else if c == 'Y' then 'y' else if c == 'Z' then 'z' else c

/-- Drop the longest suffix whose characters all satisfy `p`. -/
def dropRWhile (p : Char → Bool) (l : Str) : Str :=
  ((l.reverse).dropWhile p).reverse

/-- Python `str.strip()`. -/
def pyStrip (l : Str) : Str :=
  dropRWhile isSpaceB (l.dropWhile isSpaceB)

/-- Python `str.lower()` (ASCII). -/
def pyLower (l : Str) : Str := l.map lowerChar

/-- Python `str.split(sep)` for a one-character separator: splits at
every occurrence, keeping empty pieces, and returns `[""]` on `""`. -/
def splitOnChar (sep : Char) : Str → List Str
  | [] => [[]]
  | c :: rest =>
    if c == sep then [] :: splitOnChar sep rest
    else
      match splitOnChar sep rest with
      | [] => [[c]]
      | h :: t => (c :: h) :: t

/-- `startsWith n h` : `n` is a prefix of `h`. -/
def startsWith : Str → Str → Bool
  | [], _ => true
  | _ :: _, [] => false
  | a :: as, b :: bs => a == b && startsWith as bs

/-- Python `needle in haystack` (substring containment). -/
def containsSub (needle : Str) : Str → Bool
  | [] => needle.isEmpty
  | c :: rest => startsWith needle (c :: rest) || containsSub needle rest

/-- Remove a literal prefix, returning the remainder when it matches. -/
def stripLit : Str → Str → Option Str
  | [], s => some s
  | _ :: _, [] => none
  | a :: as, b :: bs => if a == b then stripLit as bs else none

/-- One segment record produced by `_parse_csv_response`:
a record with the keys `event_id`, `start_time`, `end_time`. -/
structure Segment where
  event_id : Str
  start_time : Str
  end_time : Str
deriving DecidableEq, Repr

/-- The literal header tokens searched for by the fallback scan. -/
def headerNeedle : Str := "event_id,start_time,end_time".data

/-- `',' in line and len(line.split(',')) >= 3` (a table-shaped line). -/
def commaShaped (line : Str) : Bool :=
  line.contains ',' && decide (3 ≤ (splitOnChar ',' line).length)

/-- The fallback line scan of `_parse_csv_response` (the `for line in
lines` loop with its `in_csv` flag; `[]` at the end is the `break`). -/
def scanLoop : List Str → Bool → List Str
  | [], _ => []
  | l :: rest, inCsv =>
    let line := pyStrip l
    if containsSub headerNeedle (pyLower line) then
      line :: scanLoop rest true
    else if inCsv && commaShaped line then
      line :: scanLoop rest true
    else if inCsv && line.isEmpty then
      scanLoop rest true
    else if inCsv then
      []
    else
      scanLoop rest false

/-- Literal `"```csv"` opening the fenced-block pattern. -/
def fenceOpen : Str := "```csv".data

/-- Literal `"\n```"` closing the fenced-block pattern. -/
def nlTicks : Str := "\n```".data

/-- Lazy `(.*?)` followed by the literal `"\n```"` (with `re.DOTALL`):
returns the characters before the earliest occurrence of `"\n```"`. -/
def lazyBody : Str → Option Str
  | [] => none
  | c :: rest =>
    if (stripLit nlTicks (c :: rest)).isSome then some []
    else
      match lazyBody rest with
      | some b => some (c :: b)
      | none => none

/-- Suffixes of `t` that start right after a `'\n'` lying inside the
maximal whitespace prefix of `t`, in text order.  These are exactly the
states reachable by `\s*\n` at this position. -/
def nlSuffixes : Str → List Str
  | [] => []
  | c :: rest =>
    if c == '\n' then rest :: nlSuffixes rest
    else if isSpaceB c then nlSuffixes rest
    else []

/-- Match `\s*\n(.*?)\n```` after the literal fence: the greedy `\s*`
backtracks from the longest whitespace run, so the candidate resume
points are tried from the last `'\n'` backwards. -/
def matchAfterFence (t : Str) : Option Str :=
  ((nlSuffixes t).reverse.filterMap lazyBody).head?

/-- The search `re.search` for the raw pattern ```` ```csv\s*\n(.*?)\n``` ````
over the response with `re.DOTALL`:
leftmost starting position wins. -/
def findFencedCsv : Str → Option Str
  | [] => none
  | c :: rest =>
    match stripLit fenceOpen (c :: rest) with
    | some t =>
      match matchAfterFence t with
      | some body => some body
      | none => findFencedCsv rest
    | none => findFencedCsv rest

/-- Python `'\n'.join(lines)`. -/
def joinNl : List Str → Str
  | [] => []
  | [l] => l
  | l :: l2 :: rest => l ++ '\n' :: joinNl (l2 :: rest)

/-- The `csv_content` value computed by `_parse_csv_response`: the
stripped interior of a fenced ```` ```csv ```` block when the regex
matches, otherwise the joined lines captured by the fallback scan. -/
def csvContentOf (response : Str) : Str :=
  match findFencedCsv response with
  | some body => pyStrip body
  | none => joinNl (scanLoop (splitOnChar '\n' (pyStrip response)) false)

/-- The body of the per-row loop, as a function of the comma-split
parts: `len(parts) >= 3`, trim the first three, require all three
non-empty. -/
def rowFromParts : List Str → Option Segment
  | e :: s :: t :: _ =>
    let e2 := pyStrip e
    let s2 := pyStrip s
    let t2 := pyStrip t
    if e2 ≠ [] ∧ s2 ≠ [] ∧ t2 ≠ [] then some ⟨e2, s2, t2⟩ else none
  | _ => none

/-- One iteration of the row loop exactly as the source performs it:
`parts = line.strip().split(',')`, then `rowFromParts`. -/
def parseRow (line : Str) : Option Segment :=
  rowFromParts (splitOnChar ',' (pyStrip line))

/-- Row acceptance as the claim words it: split the line itself on
commas, require at least 3 fields whose first three are non-empty
after trimming.  Proved equal to `parseRow`. -/
def specRow (line : Str) : Option Segment :=
  rowFromParts (splitOnChar ',' line)

/-- `VideoSplitter._parse_csv_response`.  The function is pure: every
operation it performs is total, so the enclosing `try/except` never
fires and the accumulated list is returned on every path. -/
def parseCsvResponse (response : Str) : List Segment :=
  let csvContent := csvContentOf response
  if csvContent = [] then []
  else
    let lines := splitOnChar '\n' (pyStrip csvContent)
    if lines.length < 2 then []
    else lines.tail.filterMap parseRow

/-- Digit run of Python `int(<str>)` after the optional sign: decimal
digits, allowing a single `'_'` between two digits. -/
def digitsCore (acc : Nat) : Str → Option Nat
  | [] => some acc
  | c :: rest =>
    if c.isDigit then digitsCore (acc * 10 + (c.toNat - 48)) rest
    else if c == '_' then
      match rest with
      | [] => none
      | d :: rest2 =>
        if d.isDigit then digitsCore (acc * 10 + (d.toNat - 48)) rest2 else none
    else none

/-- Python `int(<str>)` (ASCII): strip whitespace, optional `'+'` or
`'-'` sign, then a non-empty digit run; `none` models `ValueError`. -/
def pyInt (s : Str) : Option Int :=
  match pyStrip s with
  | '+' :: c :: rest =>
    if c.isDigit then (digitsCore (c.toNat - 48) rest).map (fun n => (n : Int)) else none
  | '-' :: c :: rest =>
    if c.isDigit then (digitsCore (c.toNat - 48) rest).map (fun n => -(n : Int)) else none
  | c :: rest =>
    if c.isDigit then (digitsCore (c.toNat - 48) rest).map (fun n => (n : Int)) else none
  | [] => none

/-- `VideoSplitter._time_to_seconds`: strip, split on `':'`; two
integer fields give `minutes*60 + seconds`, three give
`hours*3600 + minutes*60 + seconds`; every failure path returns the
`0.0` fallback (embedded as `0`). -/
def timeToSeconds (time_str : Str) : Int :=
  match splitOnChar ':' (pyStrip time_str) with
  | [m, s] =>
    match pyInt m, pyInt s with
    | some mv, some sv => mv * 60 + sv
    | _, _ => 0
  | [h, m, s] =>
    match pyInt h, pyInt m, pyInt s with
    | some hv, some mv, some sv => hv * 3600 + mv * 60 + sv
    | _, _, _ => 0
  | _ => 0

/-- The regex class `\w` (ASCII part): letters, digits, underscore. -/
def isWordChar (c : Char) : Bool := c.isAlphanum || c == '_'

/-- One character of the substitution `re.sub` of `_` for the class
`[^\w\-_.]` in the event id. -/
def sanitizeChar (c : Char) : Char :=
  if isWordChar c || c == '-' || c == '_' || c == '.' then c else '_'

/-- The `safe_event_id` computed by substituting `_` for every
character in the class `[^\w\-_.]`. -/
def safeEventId (event_id : Str) : Str := event_id.map sanitizeChar

/-- The fixed clip extension of the pipeline. -/
def mp4Ext : Str := ".mp4".data

/-- `output_filename = f"{safe_event_id}_{today}.mp4"`. -/
def outputFilename (event_id : Str) (today : Str) : Str :=
  safeEventId event_id ++ '_' :: (today ++ mp4Ext)

/-- The per-segment data computed before the ffmpeg call. -/
structure CutJob where
  event_id : Str
  start_seconds : Int
  duration : Int
  filename : Str
deriving DecidableEq, Repr

/-- `end_seconds - start_seconds` for a segment. -/
def durOf (seg : Segment) : Int :=
  timeToSeconds seg.end_time - timeToSeconds seg.start_time

/-- The planning part of one iteration of
`_split_video_with_ffmpeg`: convert both timecodes, skip the segment
when `duration <= 0`, otherwise build the output name. -/
def planJob (today : Str) (seg : Segment) : Option CutJob :=
  let start_seconds := timeToSeconds seg.start_time
  let end_seconds := timeToSeconds seg.end_time
  let duration := end_seconds - start_seconds
  if duration ≤ 0 then none
  else
    some { event_id := seg.event_id, start_seconds := start_seconds,
           duration := duration, filename := outputFilename seg.event_id today }

/-- All jobs planned for one run (jobs are attempted in input order). -/
def planJobs (today : Str) (segs : List Segment) : List CutJob :=
  segs.filterMap (planJob today)

/-- Behaviour of one external `subprocess.run` ffmpeg invocation:
zero return code, non-zero return code, or a raised exception. -/
inductive CutOutcome
  | ok
  | fail
  | exn
deriving DecidableEq, Repr

/-- Observable side effects of one pipeline run. -/
inductive Effect
  | mkdirE
  | analyzeE
  | cutE (i : Nat)
  | writeCsvE
deriving DecidableEq, Repr

/-- `str(Path(dir) / name)` for a relative `name`. -/
def outPath (dir name : Str) : Str := dir ++ '/' :: name

/-- `VideoSplitter._split_video_with_ffmpeg` over segment index `i`
onwards: first component is `split_files`, second the trace of cutter
invocations.  A failed or raising cutter call appends nothing and the
loop continues (`continue` in both the `else` branch and the
`except` handler). -/
def splitLoopT (today dir : Str) (cutter : Nat → CutOutcome) :
    Nat → List Segment → List Str × List Effect
  | _, [] => ([], [])
  | i, seg :: rest =>
    let r := splitLoopT today dir cutter (i + 1) rest
    match planJob today seg with
    | none => r
    | some job =>
      match cutter i with
      | CutOutcome.ok => (outPath dir job.filename :: r.1, Effect.cutE i :: r.2)
      | CutOutcome.fail => (r.1, Effect.cutE i :: r.2)
      | CutOutcome.exn => (r.1, Effect.cutE i :: r.2)

/-- Reply of the external analyzer collaborator: response text, or a
raised error. -/
inductive AnalyzerReply
  | text (s : Str)
  | failure

/-- The environment of one `split_video` run: the file-system and
collaborator behaviour it can observe. -/
structure Env where
  inputExists : Bool
  mkdirOk : Bool
  promptAvailable : Bool
  analyzerReply : AnalyzerReply
  cutter : Nat → CutOutcome
  csvWriteOk : Bool
  inputPath : Str
  outputDir : Str
  today : Str
  csvTimestamp : Str

/-- Fatal error kinds raised (wrapped in `VideoSplitterError`) by
`split_video`. -/
inductive SplitError
  | inputNotFound
  | outputDirFailed
  | promptMissing
  | analysisFailed
  | noSegments
deriving DecidableEq, Repr

/-- The result dictionary built by `split_video`. -/
structure RunResult where
  input_file : Str
  output_directory : Str
  segments_count : Nat
  split_files : List Str
  csv_file : Str
  segments : List Segment
deriving DecidableEq, Repr

/-- Either a raised `VideoSplitterError` or the result dictionary. -/
inductive RunOutcome
  | fatal (e : SplitError)
  | success (r : RunResult)
deriving DecidableEq, Repr

/-- `VideoSplitter._save_segments_to_csv`: returns the csv path, or
`""` when writing raises (the failure is swallowed). -/
def saveSegmentsToCsv (env : Env) : Str :=
  if env.csvWriteOk then
    outPath env.outputDir ("video_segments_".data ++ env.csvTimestamp ++ ".csv".data)
  else []

/-- `VideoSplitter.split_video`: existence check, output directory
creation, prompt lookup, analyzer call, extraction, per-segment cut
loop, manifest write, result dictionary.  Paired with the trace of
external effects performed. -/
def splitVideo (env : Env) : RunOutcome × List Effect :=
  if !env.inputExists then
    (RunOutcome.fatal SplitError.inputNotFound, [])
  else if !env.mkdirOk then
    (RunOutcome.fatal SplitError.outputDirFailed, [Effect.mkdirE])
  else if !env.promptAvailable then
    (RunOutcome.fatal SplitError.promptMissing, [Effect.mkdirE])
  else
    match env.analyzerReply with
    | AnalyzerReply.failure =>
      (RunOutcome.fatal SplitError.analysisFailed, [Effect.mkdirE, Effect.analyzeE])
    | AnalyzerReply.text response =>
      let segs := parseCsvResponse response
      if segs.isEmpty then
        (RunOutcome.fatal SplitError.noSegments, [Effect.mkdirE, Effect.analyzeE])
      else
        let cut := splitLoopT env.today env.outputDir env.cutter 0 segs
        (RunOutcome.success
          { input_file := env.inputPath, output_directory := env.outputDir,
            segments_count := segs.length, split_files := cut.1,
            csv_file := saveSegmentsToCsv env, segments := segs },
         Effect.mkdirE :: Effect.analyzeE :: (cut.2 ++ [Effect.writeCsvE]))

/-! ## Specification-side definitions

These follow the wording of the specification claims and are compared
with the code-side definitions above. -/

/-- Claim C1, capture phase after the header was seen: capture every
line that is blank after trimming is skipped, every comma-shaped line
is captured, and the first line that is neither ends the capture. -/
def specCaptureRest : List Str → List Str
  | [] => []
  | l :: rest =>
    let line := pyStrip l
    if line.isEmpty then specCaptureRest rest
    else if commaShaped line then line :: specCaptureRest rest
    else []

/-- Claim C1: lines before the first line case-insensitively containing
the literal header tokens are ignored; that header line starts the
capture and is itself captured. -/
def specScan : List Str → List Str
  | [] => []
  | l :: rest =>
    let line := pyStrip l
    if containsSub headerNeedle (pyLower line) then line :: specCaptureRest rest
    else specScan rest

/-- `noChar c l` : the character `c` does not occur in `l`. -/
def noChar (c : Char) (l : Str) : Bool := l.all (fun x => x != c)

/-- The backtick character. -/
def tickChar : Char := Char.ofNat 96

/-- A well-formed data row for the fenced-CSV round trip of claim C2:
non-empty, no newline or backtick, no leading or trailing whitespace,
and accepted by the row parser (at least 3 fields, first three
non-empty after trimming). -/
def cleanRowB (row : Str) : Bool :=
  !row.isEmpty && !isSpaceB (row.headD ' ') && !isSpaceB (row.reverse.headD ' ') &&
    noChar '\n' row && noChar tickChar row && (specRow row).isSome

/-- The table interior: header line followed by the data rows. -/
def bodyOf (rows : List Str) : Str := joinNl (headerNeedle :: rows)

/-- A well-formed fenced-CSV response:
```` ```csv\n<header>\n<row>...\n``` ````. -/
def fencedInput (rows : List Str) : Str :=
  fenceOpen ++ '\n' :: (bodyOf rows ++ nlTicks)

/-- The cut jobs of a run together with the segment index each one was
planned from. -/
def jobsWithIndex (today : Str) (i : Nat) (segs : List Segment) :
    List (Nat × CutJob) :=
  (List.enumFrom i segs).filterMap
    (fun p => (planJob today p.2).map (fun j => (p.1, j)))

/-- Apply `f` to the last element of a list. -/
def modLast (f : Str → Str) : List Str → List Str
  | [] => []
  | [x] => [f x]
  | x :: y :: t => x :: modLast f (y :: t)

/-- Number of occurrences of a character. -/
def countC (c : Char) : Str → Nat
  | [] => 0
  | x :: r => (if x == c then 1 else 0) + countC c r

/-! ## Concrete fixtures used by the witness theorems -/

/-- An environment whose input video path does not exist. -/
def envC8 : Env :=
  { inputExists := false, mkdirOk := true, promptAvailable := true,
    analyzerReply := AnalyzerReply.text [], cutter := fun _ => CutOutcome.ok,
    csvWriteOk := true, inputPath := "in.mp4".data, outputDir := "out".data,
    today := "20251012".data, csvTimestamp := "20251012_093000".data }

/-- An analyzer response holding one valid unfenced table. -/
def respC10 : Str := "event_id,start_time,end_time\nev1,00:00,01:30".data

/-- An otherwise healthy environment whose manifest write raises. -/
def envC10 : Env :=
  { inputExists := true, mkdirOk := true, promptAvailable := true,
    analyzerReply := AnalyzerReply.text respC10, cutter := fun _ => CutOutcome.ok,
    csvWriteOk := false, inputPath := "in.mp4".data, outputDir := "out".data,
    today := "20251012".data, csvTimestamp := "20251012_093000".data }

/-! ## Helper lemmas: splitting and stripping -/

theorem split_ne_nil (sep : Char) (l : Str) : splitOnChar sep l ≠ [] := by
  cases l with
  | nil => simp [splitOnChar]
  | cons c rest =>
    by_cases h : (c == sep) = true
    · simp [splitOnChar, h]
    · simp only [splitOnChar, Bool.not_eq_true] at *
      rw [h]
      cases splitOnChar sep rest <;> simp

theorem split_cons_of_ne {sep c : Char} {rest hd : Str} {tl : List Str}
    (hc : (c == sep) = false) (hr : splitOnChar sep rest = hd :: tl) :
    splitOnChar sep (c :: rest) = (c :: hd) :: tl := by
  simp [splitOnChar, hc, hr]

theorem split_no_sep {sep : Char} {l : Str} (h : noChar sep l = true) :
    splitOnChar sep l = [l] := by
  induction l with
  | nil => rfl
  | cons c rest ih =>
    rw [noChar, List.all_cons, Bool.and_eq_true] at h
    have hc : (c == sep) = false := by
      have := h.1
      simp [bne] at this
      simpa using this
    exact split_cons_of_ne hc (ih h.2)

theorem split_sep_append {sep : Char} {w : Str} (rest : Str) (h : noChar sep w = true) :
    splitOnChar sep (w ++ sep :: rest) = w :: splitOnChar sep rest := by
  induction w with
  | nil => simp [splitOnChar]
  | cons c w ih =>
    rw [noChar, List.all_cons, Bool.and_eq_true] at h
    have hc : (c == sep) = false := by
      have := h.1
      simp [bne] at this
      simpa using this
    exact split_cons_of_ne hc (ih h.2)

theorem modLast_cons (f : Str → Str) (a : Str) {l : List Str} (h : l ≠ []) :
    modLast f (a :: l) = a :: modLast f l := by
  cases l with
  | nil => exact absurd rfl h
  | cons b t => rfl

theorem split_append_nosep_right {sep : Char} {w : Str} (y : Str)
    (h : noChar sep w = true) :
    splitOnChar sep (y ++ w) = modLast (fun z => z ++ w) (splitOnChar sep y) := by
  induction y with
  | nil => simp [splitOnChar, split_no_sep h, modLast]
  | cons c y ih =>
    by_cases hc : (c == sep) = true
    · have h1 : splitOnChar sep (c :: (y ++ w)) = [] :: splitOnChar sep (y ++ w) := by
        simp [splitOnChar, hc]
      have h2 : splitOnChar sep (c :: y) = [] :: splitOnChar sep y := by
        simp [splitOnChar, hc]
      rw [List.cons_append, h1, ih, h2, modLast_cons _ _ (split_ne_nil sep y)]
    · rw [Bool.not_eq_true] at hc
      obtain ⟨hd, tl, hy⟩ : ∃ hd tl, splitOnChar sep y = hd :: tl := by
        cases hs : splitOnChar sep y with
        | nil => exact absurd hs (split_ne_nil sep y)
        | cons a b => exact ⟨a, b, rfl⟩
      cases tl with
      | nil =>
        have hyw : splitOnChar sep (y ++ w) = [hd ++ w] := by
          rw [ih, hy]; rfl
        rw [List.cons_append, split_cons_of_ne hc hyw,
            split_cons_of_ne hc hy]
        rfl
      | cons t1 t2 =>
        have hyw : splitOnChar sep (y ++ w) = hd :: modLast (fun z => z ++ w) (t1 :: t2) := by
          rw [ih, hy, modLast_cons _ _ (by simp)]
        rw [List.cons_append, split_cons_of_ne hc hyw,
            split_cons_of_ne hc hy]
        rfl

theorem map_pyStrip_modLast {w : Str} (hw : ∀ z, pyStrip (z ++ w) = pyStrip z) :
    ∀ L : List Str,
      (modLast (fun z => z ++ w) L).map pyStrip = L.map pyStrip := by
  intro L
  induction L with
  | nil => rfl
  | cons x t ih =>
    cases t with
    | nil => simp [modLast, hw]
    | cons y t2 =>
      rw [modLast_cons _ _ (by simp)]
      simp only [List.map_cons]
      rw [ih]
      simp

theorem dropWhile_of_all {p : Char → Bool} {w : Str} (h : w.all p = true) (x : Str) :
    (w ++ x).dropWhile p = x.dropWhile p := by
  induction w with
  | nil => rfl
  | cons c w ih =>
    rw [List.all_cons, Bool.and_eq_true] at h
    rw [List.cons_append, List.dropWhile_cons_of_pos h.1, ih h.2]

theorem pyStrip_ws_front {w : Str} (h : w.all isSpaceB = true) (x : Str) :
    pyStrip (w ++ x) = pyStrip x := by
  unfold pyStrip
  rw [dropWhile_of_all h]

theorem all_reverse {p : Char → Bool} {w : Str} (h : w.all p = true) :
    w.reverse.all p = true := by
  rw [List.all_eq_true] at *
  intro x hx
  exact h x (List.mem_reverse.mp hx)

theorem pyStrip_all_ws {l : Str} (h : l.all isSpaceB = true) : pyStrip l = [] := by
  have h1 : l.dropWhile isSpaceB = [] := by
    rw [List.dropWhile_eq_nil_iff]
    exact List.all_eq_true.mp h
  unfold pyStrip dropRWhile
  rw [h1]
  rfl

theorem pyStrip_ws_back {w : Str} (h : w.all isSpaceB = true) (x : Str) :
    pyStrip (x ++ w) = pyStrip x := by
  by_cases hx : x.dropWhile isSpaceB = []
  · have hxall : x.all isSpaceB = true :=
      List.all_eq_true.mpr (List.dropWhile_eq_nil_iff.mp hx)
    have hall : (x ++ w).all isSpaceB = true := by
      rw [List.all_append, hxall, h]
      rfl
    rw [pyStrip_all_ws hall, pyStrip_all_ws hxall]
  · have h2 : (x ++ w).dropWhile isSpaceB = x.dropWhile isSpaceB ++ w := by
      rw [List.dropWhile_append]
      simp [hx]
    unfold pyStrip
    rw [h2]
    unfold dropRWhile
    rw [List.reverse_append, dropWhile_of_all (all_reverse h)]

theorem map_strip_split (l : Str) :
    (splitOnChar ',' (pyStrip l)).map pyStrip = (splitOnChar ',' l).map pyStrip := by
  have hw : (l.takeWhile isSpaceB).all isSpaceB = true := List.all_takeWhile
  have hl : l = l.takeWhile isSpaceB ++ l.dropWhile isSpaceB :=
    (List.takeWhile_append_dropWhile isSpaceB l).symm
  have hw2 : (((l.dropWhile isSpaceB).reverse.takeWhile isSpaceB).reverse).all isSpaceB = true :=
    all_reverse List.all_takeWhile
  have hr : l.dropWhile isSpaceB =
      pyStrip l ++ ((l.dropWhile isSpaceB).reverse.takeWhile isSpaceB).reverse := by
    conv_lhs => rw [← List.reverse_reverse (l.dropWhile isSpaceB),
      ← List.takeWhile_append_dropWhile isSpaceB (l.dropWhile isSpaceB).reverse]
    rw [List.reverse_append]
    rfl
  have hwsnc : ∀ u : Str, u.all isSpaceB = true → noChar ',' u = true := by
    intro u hu
    rw [noChar, List.all_eq_true]
    intro x hx
    have hxs : isSpaceB x = true := List.all_eq_true.mp hu x hx
    simp only [bne, Bool.not_eq_true']
    cases hxc : (x == ',') with
    | false => rfl
    | true =>
      exfalso
      have : x = ',' := eq_of_beq hxc
      subst this
      exact absurd hxs (by decide)
  have hfront : ∀ (w y : Str), w.all isSpaceB = true →
      (splitOnChar ',' (w ++ y)).map pyStrip = (splitOnChar ',' y).map pyStrip := by
    intro w
    induction w with
    | nil => intro y _; rfl
    | cons c w ih =>
      intro y hcw
      rw [List.all_cons, Bool.and_eq_true] at hcw
      have hc : (c == ',') = false := by
        cases hxc : (c == ',') with
        | false => rfl
        | true =>
          exfalso
          have : c = ',' := eq_of_beq hxc
          subst this
          exact absurd hcw.1 (by decide)
      obtain ⟨hd, tl, hwy⟩ : ∃ hd tl, splitOnChar ',' (w ++ y) = hd :: tl := by
        cases hs : splitOnChar ',' (w ++ y) with
        | nil => exact absurd hs (split_ne_nil ',' (w ++ y))
        | cons a b => exact ⟨a, b, rfl⟩
      rw [List.cons_append, split_cons_of_ne hc hwy, List.map_cons]
      have hstep : pyStrip (c :: hd) = pyStrip hd := pyStrip_ws_front (w := [c]) (by simp [hcw.1]) hd
      rw [hstep]
      have := ih y hcw.2
      rw [hwy, List.map_cons] at this
      rw [this]
  calc (splitOnChar ',' (pyStrip l)).map pyStrip
      = (modLast (fun z => z ++ ((l.dropWhile isSpaceB).reverse.takeWhile isSpaceB).reverse)
          (splitOnChar ',' (pyStrip l))).map pyStrip := by
        rw [map_pyStrip_modLast (fun z => pyStrip_ws_back hw2 z)]
    _ = (splitOnChar ','
          (pyStrip l ++ ((l.dropWhile isSpaceB).reverse.takeWhile isSpaceB).reverse)).map pyStrip := by
        rw [split_append_nosep_right _ (hwsnc _ hw2)]
    _ = (splitOnChar ',' (l.dropWhile isSpaceB)).map pyStrip := by rw [← hr]
    _ = (splitOnChar ','
          (l.takeWhile isSpaceB ++ l.dropWhile isSpaceB)).map pyStrip := by
        rw [hfront _ _ hw]
    _ = (splitOnChar ',' l).map pyStrip := by rw [← hl]

theorem rowFromParts_congr {A B : List Str} (h : A.map pyStrip = B.map pyStrip) :
    rowFromParts A = rowFromParts B := by
  match A, B with
  | [], [] => rfl
  | [], _ :: _ => simp at h
  | _ :: _, [] => simp at h
  | [_], [_] => rfl
  | [_], _ :: _ :: _ => simp at h
  | _ :: _ :: _, [_] => simp at h
  | [_, _], [_, _] => rfl
  | [_, _], _ :: _ :: _ :: _ => simp at h
  | _ :: _ :: _ :: _, [_, _] => simp at h
  | e :: s :: t :: r, e2 :: s2 :: t2 :: r2 =>
    simp only [List.map_cons, List.cons.injEq] at h
    simp only [rowFromParts]
    rw [h.1, h.2.1, h.2.2.1]

theorem parseRow_eq_specRow (line : Str) : parseRow line = specRow line :=
  rowFromParts_congr (map_strip_split line)

/-! ## Helper lemmas: the fallback line scan -/

theorem countC_startsWith {n h : Str} {c : Char} (hs : startsWith n h = true) :
    countC c n ≤ countC c h := by
  induction n generalizing h with
  | nil => simp [countC]
  | cons a as ih =>
    cases h with
    | nil => simp [startsWith] at hs
    | cons b bs =>
      rw [startsWith, Bool.and_eq_true] at hs
      have hab : a = b := eq_of_beq hs.1
      subst hab
      simp only [countC]
      exact Nat.add_le_add_left (ih hs.2) _

theorem countC_containsSub {n h : Str} {c : Char} (hs : containsSub n h = true) :
    countC c n ≤ countC c h := by
  induction h with
  | nil =>
    rw [containsSub] at hs
    have : n = [] := List.isEmpty_iff.mp hs
    subst this
    exact Nat.le_refl _
  | cons b bs ih =>
    rw [containsSub, Bool.or_eq_true] at hs
    rcases hs with h1 | h2
    · exact countC_startsWith h1
    · calc countC c n ≤ countC c bs := ih h2
        _ ≤ countC c (b :: bs) := by simp only [countC]; omega

theorem lowerChar_comma (x : Char) : (lowerChar x == ',') = (x == ',') := by
  unfold lowerChar
  by_cases h1 : x = 'A'
  · subst h1; decide
  by_cases h2 : x = 'B'
  · subst h2; decide
  by_cases h3 : x = 'C'
  · subst h3; decide
  by_cases h4 : x = 'D'
  · subst h4; decide
  by_cases h5 : x = 'E'
  · subst h5; decide
  by_cases h6 : x = 'F'
  · subst h6; decide
  by_cases h7 : x = 'G'
  · subst h7; decide
  by_cases h8 : x = 'H'
  · subst h8; decide
  by_cases h9 : x = 'I'
  · subst h9; decide
  by_cases h10 : x = 'J'
  · subst h10; decide
  by_cases h11 : x = 'K'
  · subst h11; decide
  by_cases h12 : x = 'L'
  · subst h12; decide
  by_cases h13 : x = 'M'
  · subst h13; decide
  by_cases h14 : x = 'N'
  · subst h14; decide
  by_cases h15 : x = 'O'
  · subst h15; decide
  by_cases h16 : x = 'P'
  · subst h16; decide
  by_cases h17 : x = 'Q'
  · subst h17; decide
  by_cases h18 : x = 'R'
  · subst h18; decide
  by_cases h19 : x = 'S'
  · subst h19; decide
  by_cases h20 : x = 'T'
  · subst h20; decide
  by_cases h21 : x = 'U'
  · subst h21; decide
  by_cases h22 : x = 'V'
  · subst h22; decide
  by_cases h23 : x = 'W'
  · subst h23; decide
  by_cases h24 : x = 'X'
  · subst h24; decide
  by_cases h25 : x = 'Y'
  · subst h25; decide
  by_cases h26 : x = 'Z'
  · subst h26; decide
  simp [h1, h2, h3, h4, h5, h6, h7, h8, h9, h10, h11, h12, h13, h14, h15, h16, h17, h18, h19, h20, h21, h22, h23, h24, h25, h26]

theorem countC_pyLower (l : Str) : countC ',' (pyLower l) = countC ',' l := by
  induction l with
  | nil => rfl
  | cons x r ih =>
    simp only [pyLower, List.map_cons, countC, lowerChar_comma x]
    rw [← pyLower]
    rw [ih]

theorem split_length_countC (sep : Char) (l : Str) :
    (splitOnChar sep l).length = countC sep l + 1 := by
  induction l with
  | nil => rfl
  | cons c rest ih =>
    by_cases hc : (c == sep) = true
    · rw [countC, hc]
      simp only [splitOnChar, hc, if_true, List.length_cons]
      omega
    · rw [Bool.not_eq_true] at hc
      obtain ⟨hd, tl, hr⟩ : ∃ hd tl, splitOnChar sep rest = hd :: tl := by
        cases hs : splitOnChar sep rest with
        | nil => exact absurd hs (split_ne_nil sep rest)
        | cons a b => exact ⟨a, b, rfl⟩
      rw [split_cons_of_ne hc hr]
      rw [hr] at ih
      simp only [List.length_cons] at ih
      simp only [countC, hc, List.length_cons, Bool.false_eq_true, if_false]
      omega

theorem mem_of_countC {c : Char} {l : Str} (h : 1 ≤ countC c l) : c ∈ l := by
  induction l with
  | nil => simp [countC] at h
  | cons x r ih =>
    by_cases hx : (x == c) = true
    · have hxc := eq_of_beq hx
      subst hxc
      exact List.mem_cons_self x r
    · have h2 : 1 ≤ countC c r := by
        simp only [countC, hx, Bool.false_eq_true, if_false] at h
        omega
      exact List.mem_cons_of_mem x (ih h2)

theorem contains_of_countC {c : Char} {l : Str} (h : 1 ≤ countC c l) :
    l.contains c = true :=
  List.elem_iff.mpr (mem_of_countC h)

theorem header_commaShaped {line : Str}
    (h : containsSub headerNeedle (pyLower line) = true) :
    commaShaped line = true := by
  have h1 : countC ',' headerNeedle ≤ countC ',' (pyLower line) := countC_containsSub h
  have h2 : countC ',' headerNeedle = 2 := by decide
  rw [countC_pyLower] at h1
  rw [commaShaped, Bool.and_eq_true]
  constructor
  · exact contains_of_countC (by omega)
  · rw [decide_eq_true_iff, split_length_countC]
    omega

theorem header_ne_empty {line : Str}
    (h : containsSub headerNeedle (pyLower line) = true) :
    line.isEmpty = false := by
  cases line with
  | nil => exact absurd h (by decide)
  | cons c r => rfl

theorem scanLoop_eq (lines : List Str) :
    scanLoop lines false = specScan lines ∧
      scanLoop lines true = specCaptureRest lines := by
  induction lines with
  | nil => exact ⟨rfl, rfl⟩
  | cons l rest ih =>
    constructor
    · by_cases hh : containsSub headerNeedle (pyLower (pyStrip l)) = true
      · simp [scanLoop, specScan, hh, ih.2]
      · simp [scanLoop, specScan, hh, ih.1]
    · by_cases hh : containsSub headerNeedle (pyLower (pyStrip l)) = true
      · have hc := header_commaShaped hh
        have hne := header_ne_empty hh
        simp [scanLoop, specCaptureRest, hh, hc, hne, ih.2]
      · by_cases he : (pyStrip l).isEmpty = true
        · have hnil : pyStrip l = [] := List.isEmpty_iff.mp he
          have hcs : commaShaped (pyStrip l) = false := by rw [hnil]; decide
          simp [scanLoop, specCaptureRest, hh, he, hcs, ih.2]
        · by_cases hcs : commaShaped (pyStrip l) = true
          · simp [scanLoop, specCaptureRest, hh, he, hcs, ih.2]
          · simp [scanLoop, specCaptureRest, hh, he, hcs]

/-! ## Helper lemmas: the fenced block and the joined table -/

theorem stripLit_self_append (a b : Str) : stripLit a (a ++ b) = some b := by
  induction a with
  | nil => rfl
  | cons c as ih => simp [stripLit, ih]

theorem joinNl_cons_cons (x y : Str) (t : List Str) :
    joinNl (x :: y :: t) = x ++ '\n' :: joinNl (y :: t) := rfl

theorem split_joinNl {ls : List Str} (h : ∀ l ∈ ls, noChar '\n' l = true)
    (hne : ls ≠ []) : splitOnChar '\n' (joinNl ls) = ls := by
  induction ls with
  | nil => exact absurd rfl hne
  | cons x t ih =>
    cases t with
    | nil => simpa [joinNl] using split_no_sep (h x (by simp))
    | cons y t2 =>
      rw [joinNl_cons_cons, split_sep_append _ (h x (by simp))]
      rw [ih (fun l hl => h l (by simp [hl])) (by simp)]

theorem lazyBody_append {xs : Str} (hx : noChar tickChar xs = true) :
    lazyBody (xs ++ nlTicks) = some xs := by
  induction xs with
  | nil =>
    have h0 : lazyBody nlTicks = some [] := by decide
    simpa using h0
  | cons c xs ih =>
    rw [noChar, List.all_cons, Bool.and_eq_true] at hx
    have hten : nlTicks = '\n' :: tickChar :: tickChar :: tickChar :: [] := by decide
    have hcond : (stripLit nlTicks (c :: (xs ++ nlTicks))).isSome = false := by
      rw [hten]
      by_cases hc : ('\n' == c) = true
      · cases xs with
        | nil =>
          simp only [stripLit, hc, if_true, List.nil_append]
          decide
        | cons x xs2 =>
          have hx2 := hx.2
          rw [List.all_cons, Bool.and_eq_true] at hx2
          have hxt : (tickChar == x) = false := by
            cases hq : (tickChar == x) with
            | false => rfl
            | true =>
              exfalso
              have hqe : tickChar = x := eq_of_beq hq
              have hb := hx2.1
              simp only [bne] at hb
              rw [← hqe] at hb
              simp at hb
          simp [stripLit, hc, hxt]
      · simp [stripLit, hc]
    rw [List.cons_append, lazyBody, hcond]
    simp only [Bool.false_eq_true, if_false]
    rw [ih hx.2]

theorem bodyOf_cons (rows : List Str) :
    bodyOf rows = 'e' :: (bodyOf rows).tail := by
  have hh : headerNeedle = 'e' :: "vent_id,start_time,end_time".data := by decide
  unfold bodyOf
  cases rows with
  | nil =>
    show headerNeedle = 'e' :: headerNeedle.tail
    rw [hh]
    rfl
  | cons r rs =>
    rw [joinNl_cons_cons, hh]
    rfl

theorem nlSuffixes_after (rows : List Str) :
    nlSuffixes (bodyOf rows ++ nlTicks) = [] := by
  rw [bodyOf_cons rows, List.cons_append, nlSuffixes]
  have h1 : (('e' : Char) == '\n') = false := by decide
  have h2 : isSpaceB 'e' = false := by decide
  simp [h1, h2]

theorem matchAfterFence_fenced {rows : List Str}
    (h : noChar tickChar (bodyOf rows) = true) :
    matchAfterFence ('\n' :: (bodyOf rows ++ nlTicks)) = some (bodyOf rows) := by
  unfold matchAfterFence
  rw [nlSuffixes]
  simp only [if_true, beq_self_eq_true]
  rw [nlSuffixes_after]
  simp [lazyBody_append h]

theorem findFencedCsv_fenced {rows : List Str}
    (h : noChar tickChar (bodyOf rows) = true) :
    findFencedCsv (fencedInput rows) = some (bodyOf rows) := by
  have he : fencedInput rows =
      '`' :: ("``csv".data ++ ('\n' :: (bodyOf rows ++ nlTicks))) := rfl
  have hs : stripLit fenceOpen ('`' :: ("``csv".data ++ ('\n' :: (bodyOf rows ++ nlTicks)))) =
      some ('\n' :: (bodyOf rows ++ nlTicks)) := by
    rw [← he]
    exact stripLit_self_append fenceOpen _
  rw [he, findFencedCsv, hs]
  simp only [matchAfterFence_fenced h]

theorem length_filterMap_all {α β : Type} {f : α → Option β} {l : List α}
    (h : ∀ x ∈ l, (f x).isSome = true) :
    (l.filterMap f).length = l.length := by
  induction l with
  | nil => rfl
  | cons x r ih =>
    obtain ⟨v, hv⟩ := Option.isSome_iff_exists.mp (h x (by simp))
    rw [List.filterMap_cons, hv]
    simp only [List.length_cons]
    rw [ih (fun y hy => h y (by simp [hy]))]

theorem dropWhile_eq_self_of_head {p : Char → Bool} {l : Str} {d : Char}
    (h : l.head? = some d) (hd : p d = false) : l.dropWhile p = l := by
  cases l with
  | nil => simp at h
  | cons c t =>
    simp only [List.head?_cons, Option.some.injEq] at h
    subst h
    exact List.dropWhile_cons_of_neg (by simp [hd])

theorem pyStrip_eq_self {l : Str} {c d : Char} (hc : l.head? = some c)
    (hcs : isSpaceB c = false) (hd : l.reverse.head? = some d)
    (hds : isSpaceB d = false) : pyStrip l = l := by
  unfold pyStrip dropRWhile
  rw [dropWhile_eq_self_of_head hc hcs, dropWhile_eq_self_of_head hd hds]
  exact List.reverse_reverse l

theorem joinNl_ne_nil {x : Str} {ls : List Str} (hx : x ≠ []) :
    joinNl (x :: ls) ≠ [] := by
  cases ls with
  | nil => simpa [joinNl] using hx
  | cons y t => simp [joinNl]

theorem joinNl_rev_head {ls : List Str} (hall : ∀ l ∈ ls, l ≠ []) (x : Str)
    (hne : ls ≠ []) :
    (joinNl (x :: ls)).reverse.head? = (joinNl ls).reverse.head? := by
  cases ls with
  | nil => exact absurd rfl hne
  | cons y t =>
    have hJ : joinNl (y :: t) ≠ [] := joinNl_ne_nil (hall y (by simp))
    have hJr : (joinNl (y :: t)).reverse ≠ [] := by simpa using hJ
    rw [joinNl_cons_cons, List.reverse_append, List.reverse_cons, List.append_assoc]
    cases hc : (joinNl (y :: t)).reverse with
    | nil => exact absurd hc hJr
    | cons a b => simp [hc]

theorem rev_head_join_all {ls : List Str} (hall : ∀ l ∈ ls, l ≠ []) :
    ∀ x, ls ≠ [] →
      ∃ lst ∈ ls, (joinNl (x :: ls)).reverse.head? = lst.reverse.head? := by
  induction ls with
  | nil => intro x h; exact absurd rfl h
  | cons y t ih =>
    intro x _
    rw [joinNl_rev_head hall x (by simp)]
    cases t with
    | nil => exact ⟨y, by simp, by simp [joinNl]⟩
    | cons z t2 =>
      obtain ⟨lst, hmem, heq⟩ := ih (fun l hl => hall l (by simp [hl])) y (by simp)
      exact ⟨lst, by simp [hmem], heq⟩

theorem noChar_joinNl {c : Char} (hc : (('\n' : Char) != c) = true) :
    ∀ ls : List Str, (∀ l ∈ ls, noChar c l = true) → noChar c (joinNl ls) = true := by
  intro ls
  induction ls with
  | nil => intro _; rfl
  | cons x t ih =>
    intro h
    cases t with
    | nil => simpa [joinNl] using h x (by simp)
    | cons y t2 =>
      rw [joinNl_cons_cons, noChar, List.all_append, Bool.and_eq_true]
      refine ⟨h x (by simp), ?_⟩
      rw [List.all_cons, Bool.and_eq_true]
      exact ⟨hc, ih (fun l hl => h l (by simp [hl]))⟩

theorem cleanRow_parts {row : Str} (h : cleanRowB row = true) :
    row ≠ [] ∧ isSpaceB (row.headD ' ') = false ∧
      isSpaceB (row.reverse.headD ' ') = false ∧ noChar '\n' row = true ∧
      noChar tickChar row = true ∧ (specRow row).isSome = true := by
  rw [cleanRowB] at h
  simp only [Bool.and_eq_true, Bool.not_eq_true'] at h
  refine ⟨?_, h.1.1.1.1.2, h.1.1.1.2, h.1.1.2, h.1.2, h.2⟩
  have := h.1.1.1.1.1
  intro hnil
  rw [hnil] at this
  simp at this

theorem pyStrip_bodyOf {rows : List Str} (hall : ∀ r ∈ rows, cleanRowB r = true) :
    pyStrip (bodyOf rows) = bodyOf rows := by
  cases rows with
  | nil => decide
  | cons r rs =>
    have hh : (bodyOf (r :: rs)).head? = some 'e' := by
      rw [bodyOf_cons]
      rfl
    have hnonempty : ∀ l ∈ (r :: rs), l ≠ [] := by
      intro l hl
      exact (cleanRow_parts (hall l hl)).1
    obtain ⟨lst, hmem, heq⟩ := rev_head_join_all hnonempty headerNeedle (by simp)
    have hcl := cleanRow_parts (hall lst hmem)
    cases hrev : lst.reverse with
    | nil =>
      exfalso
      exact hcl.1 (by simpa using congrArg List.reverse hrev)
    | cons d t =>
      have hd : isSpaceB d = false := by
        have := hcl.2.2.1
        rw [hrev] at this
        simpa using this
      refine pyStrip_eq_self hh (by decide) ?_ hd
      have : (bodyOf (r :: rs)).reverse.head? = lst.reverse.head? := heq
      rw [this, hrev]
      rfl

theorem parse_fencedInput {rows : List Str} (hall : ∀ r ∈ rows, cleanRowB r = true) :
    parseCsvResponse (fencedInput rows) = rows.filterMap specRow := by
  have htick : noChar tickChar (bodyOf rows) = true := by
    apply noChar_joinNl (by decide)
    intro l hl
    rcases List.mem_cons.mp hl with h1 | h2
    · subst h1; decide
    · exact (cleanRow_parts (hall l h2)).2.2.2.2.1
  have hfind := findFencedCsv_fenced htick
  have hstrip := pyStrip_bodyOf hall
  have hlines : splitOnChar '\n' (bodyOf rows) = headerNeedle :: rows := by
    apply split_joinNl
    · intro l hl
      rcases List.mem_cons.mp hl with h1 | h2
      · subst h1; decide
      · exact (cleanRow_parts (hall l h2)).2.2.2.1
    · simp
  have hne : bodyOf rows ≠ [] := by
    rw [bodyOf_cons]
    simp
  have hcc : csvContentOf (fencedInput rows) = bodyOf rows := by
    unfold csvContentOf
    rw [hfind]
    exact hstrip
  simp only [parseCsvResponse]
  rw [hcc, if_neg hne, hstrip, hlines]
  cases rows with
  | nil => simp
  | cons r rs =>
    have hlen : ¬ (headerNeedle :: r :: rs).length < 2 := by simp
    rw [if_neg hlen]
    have hfs : parseRow = specRow := funext parseRow_eq_specRow
    simp [hfs]

/-! ## Helper lemmas: planning and the cut loop -/

theorem planJob_eq (today : Str) (s : Segment) :
    planJob today s =
      if 0 < durOf s then
        some { event_id := s.event_id, start_seconds := timeToSeconds s.start_time,
               duration := durOf s, filename := outputFilename s.event_id today }
      else none := by
  unfold planJob durOf
  by_cases h : timeToSeconds s.end_time - timeToSeconds s.start_time ≤ 0
  · rw [if_pos h, if_neg (by omega)]
  · rw [if_neg h, if_pos (by omega)]

theorem planJobs_eq (today : Str) (segs : List Segment) :
    planJobs today segs =
      (segs.filter (fun s => decide (0 < durOf s))).map
        (fun s => { event_id := s.event_id, start_seconds := timeToSeconds s.start_time,
                    duration := durOf s, filename := outputFilename s.event_id today }) := by
  induction segs with
  | nil => rfl
  | cons s t ih =>
    rw [planJobs, List.filterMap_cons, List.filter_cons]
    rw [planJobs] at ih
    by_cases h : 0 < durOf s
    · rw [planJob_eq, if_pos h]
      simp [h, ih]
    · rw [planJob_eq, if_neg h]
      simp [h, ih]

theorem splitLoopT_files (today dir : Str) (cutter : Nat → CutOutcome)
    (i : Nat) (segs : List Segment) :
    (splitLoopT today dir cutter i segs).1 =
      ((jobsWithIndex today i segs).filter
          (fun p => decide (cutter p.1 = CutOutcome.ok))).map
        (fun p => outPath dir p.2.filename) := by
  induction segs generalizing i with
  | nil => rfl
  | cons s t ih =>
    cases hp : planJob today s with
    | none =>
      simp [splitLoopT, jobsWithIndex, List.enumFrom, List.filterMap_cons, hp, ih (i + 1),
        jobsWithIndex]
    | some job =>
      cases hc : cutter i with
      | ok =>
        simp [splitLoopT, jobsWithIndex, List.enumFrom, List.filterMap_cons, hp, hc,
          ih (i + 1)]
      | fail =>
        simp [splitLoopT, jobsWithIndex, List.enumFrom, List.filterMap_cons, hp, hc,
          ih (i + 1)]
      | exn =>
        simp [splitLoopT, jobsWithIndex, List.enumFrom, List.filterMap_cons, hp, hc,
          ih (i + 1)]

/-! ## Claim theorems -/

/-- Claim C1: for every response with no fenced CSV block, extraction
falls back to a line-by-line scan that starts capturing at the first
line case-insensitively containing `event_id,start_time,end_time`
(capturing that header line), then captures every subsequent line that
contains a comma and splits into at least 3 comma-separated fields,
skips lines blank after trimming, stops at the first line that is
neither blank nor comma-shaped, and ignores lines before the header
(`specScan`/`specCaptureRest` are worded from the claim; `csvContentOf`
is the candidate-table computation of the code). -/
theorem claim_C1 (r : Str) (hno : findFencedCsv r = none) :
    csvContentOf r = joinNl (specScan (splitOnChar '\n' (pyStrip r))) := by
  unfold csvContentOf
  rw [hno]
  rw [(scanLoop_eq (splitOnChar '\n' (pyStrip r))).1]

/-- Witness for C1 at a concrete fence-free response. -/
theorem claim_C1_witness :
    findFencedCsv ("intro\nevent_id,start_time,end_time\nev1,0:00,0:10".data) = none ∧
      csvContentOf ("intro\nevent_id,start_time,end_time\nev1,0:00,0:10".data) =
        joinNl (specScan (splitOnChar '\n'
          (pyStrip ("intro\nevent_id,start_time,end_time\nev1,0:00,0:10".data)))) :=
  ⟨by decide, claim_C1 _ (by decide)⟩

/-- Claim C2: when the candidate table has at least 2 lines, the first
line is discarded and each remaining line yields a record exactly when
it splits into at least 3 comma-separated fields whose first three are
non-empty after trimming (`specRow`), in original order; and for every
well-formed fenced-CSV input with a header and N valid rows, extraction
returns exactly N records in original order. -/
theorem claim_C2 (r : Str) (rows : List Str) :
    (2 ≤ (splitOnChar '\n' (pyStrip (csvContentOf r))).length →
      parseCsvResponse r =
        ((splitOnChar '\n' (pyStrip (csvContentOf r))).tail).filterMap specRow) ∧
    (rows.all cleanRowB = true →
      parseCsvResponse (fencedInput rows) = rows.filterMap specRow ∧
        (rows.filterMap specRow).length = rows.length) := by
  constructor
  · intro hlen
    simp only [parseCsvResponse]
    have hne : csvContentOf r ≠ [] := by
      intro h0
      rw [h0] at hlen
      simp [pyStrip, dropRWhile, splitOnChar] at hlen
    rw [if_neg hne, if_neg (by omega)]
    congr 1
    exact funext parseRow_eq_specRow
  · intro hclean
    have hall : ∀ x ∈ rows, cleanRowB x = true := List.all_eq_true.mp hclean
    refine ⟨parse_fencedInput hall, ?_⟩
    apply length_filterMap_all
    intro x hx
    exact (cleanRow_parts (hall x hx)).2.2.2.2.2

/-- Witness for C2 at a concrete two-row fenced table. -/
theorem claim_C2_witness :
    (["ev1,00:00,01:30".data, "ev2,01:30,01:10".data].all cleanRowB = true) ∧
      (parseCsvResponse (fencedInput ["ev1,00:00,01:30".data, "ev2,01:30,01:10".data]) =
          (["ev1,00:00,01:30".data, "ev2,01:30,01:10".data]).filterMap specRow ∧
        ((["ev1,00:00,01:30".data, "ev2,01:30,01:10".data]).filterMap specRow).length =
          (["ev1,00:00,01:30".data, "ev2,01:30,01:10".data]).length) :=
  ⟨by decide,
    (claim_C2 [] ["ev1,00:00,01:30".data, "ev2,01:30,01:10".data]).2 (by decide)⟩

/-- Claim C3: extraction is total (a pure Lean function); when no
candidate table was found, or it has fewer than 2 lines, it returns the
empty sequence rather than an error. -/
theorem claim_C3 (r : Str) :
    (csvContentOf r = [] → parseCsvResponse r = []) ∧
      ((splitOnChar '\n' (pyStrip (csvContentOf r))).length < 2 →
        parseCsvResponse r = []) := by
  constructor
  · intro h
    simp only [parseCsvResponse]
    rw [if_pos h]
  · intro h
    simp only [parseCsvResponse]
    by_cases h0 : csvContentOf r = []
    · rw [if_pos h0]
    · rw [if_neg h0, if_pos h]

/-- Witness for C3 at a concrete response with no CSV-shaped content. -/
theorem claim_C3_witness :
    csvContentOf ("no tables here".data) = [] ∧
      parseCsvResponse ("no tables here".data) = [] :=
  ⟨by decide, (claim_C3 ("no tables here".data)).1 (by decide)⟩

/-- Claim C4: `produced_files` contains exactly the output paths of the
jobs whose cut reported success, in job order; a failing cut only omits
the path of that job and the loop continues, and an exception while invoking
the cutter is treated identically to a reported failure. -/
theorem claim_C4 (today dir : Str) (cutter : Nat → CutOutcome) (i : Nat)
    (segs : List Segment) :
    ((splitLoopT today dir cutter i segs).1 =
      ((jobsWithIndex today i segs).filter
          (fun p => decide (cutter p.1 = CutOutcome.ok))).map
        (fun p => outPath dir p.2.filename)) ∧
    (∀ j : Nat,
      (splitLoopT today dir
          (fun k => if k = j then CutOutcome.exn else cutter k) i segs).1 =
        (splitLoopT today dir
          (fun k => if k = j then CutOutcome.fail else cutter k) i segs).1) := by
  refine ⟨splitLoopT_files today dir cutter i segs, ?_⟩
  intro j
  rw [splitLoopT_files, splitLoopT_files]
  congr 1
  apply List.filter_congr
  intro p _
  by_cases hj : p.1 = j
  · simp [hj]
  · simp [hj]

/-- Claim C5: timecode parsing gives `minutes*60 + seconds` on 2
integer fields, `hours*3600 + minutes*60 + seconds` on 3, and the `0.0`
fallback on any other field count or any non-integer field; with the
three concrete examples from the specification. -/
theorem claim_C5 :
    (∀ (t a b : Str) (mv sv : Int),
        splitOnChar ':' (pyStrip t) = [a, b] → pyInt a = some mv →
        pyInt b = some sv → timeToSeconds t = mv * 60 + sv) ∧
    (∀ (t a b c : Str) (hv mv sv : Int),
        splitOnChar ':' (pyStrip t) = [a, b, c] → pyInt a = some hv →
        pyInt b = some mv → pyInt c = some sv →
        timeToSeconds t = hv * 3600 + mv * 60 + sv) ∧
    (∀ t : Str, (splitOnChar ':' (pyStrip t)).length ≠ 2 →
        (splitOnChar ':' (pyStrip t)).length ≠ 3 → timeToSeconds t = 0) ∧
    (∀ (t a b : Str), splitOnChar ':' (pyStrip t) = [a, b] →
        (pyInt a = none ∨ pyInt b = none) → timeToSeconds t = 0) ∧
    (∀ (t a b c : Str), splitOnChar ':' (pyStrip t) = [a, b, c] →
        (pyInt a = none ∨ pyInt b = none ∨ pyInt c = none) →
        timeToSeconds t = 0) ∧
    timeToSeconds ("05:30".data) = 330 ∧
    timeToSeconds ("01:02:03".data) = 3723 ∧
    timeToSeconds ("bad".data) = 0 := by
  refine ⟨?_, ?_, ?_, ?_, ?_, by decide, by decide, by decide⟩
  · intro t a b mv sv hs ha hb
    simp [timeToSeconds, hs, ha, hb]
  · intro t a b c hv mv sv hs ha hb hc
    simp [timeToSeconds, hs, ha, hb, hc]
  · intro t h2 h3
    rcases hL : splitOnChar ':' (pyStrip t) with _ | ⟨a, _ | ⟨b, _ | ⟨c, d⟩⟩⟩
    · simp [timeToSeconds, hL]
    · simp [timeToSeconds, hL]
    · exact absurd (by rw [hL]; rfl) h2
    · cases d with
      | nil => exact absurd (by rw [hL]; rfl) h3
      | cons e f => simp [timeToSeconds, hL]
  · intro t a b hs hn
    rcases hn with ha | hb
    · simp only [timeToSeconds, hs, ha]
    · simp only [timeToSeconds, hs, hb]
      all_goals cases pyInt a <;> rfl
  · intro t a b c hs hn
    rcases hn with ha | hb | hc
    · simp only [timeToSeconds, hs, ha]
    · simp only [timeToSeconds, hs, hb]
      all_goals cases pyInt a <;> cases pyInt c <;> rfl
    · simp only [timeToSeconds, hs, hc]
      all_goals cases pyInt a <;> cases pyInt b <;> rfl

/-- Witness for C5 at a concrete two-field timecode. -/
theorem claim_C5_witness :
    splitOnChar ':' (pyStrip ("7:09".data)) = ["7".data, "09".data] ∧
      pyInt ("7".data) = some 7 ∧ pyInt ("09".data) = some 9 ∧
      timeToSeconds ("7:09".data) = 7 * 60 + 9 :=
  ⟨by decide, by decide, by decide,
    claim_C5.1 ("7:09".data) ("7".data) ("09".data) 7 9 (by decide) (by decide)
      (by decide)⟩

/-- Claim C6: planning attempts one job per segment in input order; a
segment with non-positive duration produces no job and planning
continues, every positive-duration segment produces exactly one job,
and the jobs preserve the relative order of their segments. -/
theorem claim_C6 (today : Str) (pre post segs : List Segment) (s : Segment) :
    (planJobs today (pre ++ s :: post) =
      planJobs today pre ++
        (if 0 < durOf s then
          [{ event_id := s.event_id, start_seconds := timeToSeconds s.start_time,
             duration := durOf s, filename := outputFilename s.event_id today }]
         else []) ++ planJobs today post) ∧
    (planJobs today segs =
      (segs.filter (fun x => decide (0 < durOf x))).map
        (fun x => { event_id := x.event_id, start_seconds := timeToSeconds x.start_time,
                    duration := durOf x, filename := outputFilename x.event_id today })) := by
  refine ⟨?_, planJobs_eq today segs⟩
  rw [planJobs, List.filterMap_append, List.filterMap_cons, planJob_eq]
  by_cases h : 0 < durOf s
  · rw [if_pos h, if_pos h]
    simp [planJobs]
  · rw [if_neg h, if_neg h]
    simp [planJobs]

/-- Claim C7: every planned output filename is
`{sanitized_id}_{date}.mp4`, where the sanitized id replaces every
character outside word characters, hyphen, underscore, dot by an
underscore, the date is shared literally by all jobs of the run, and
the extension is the fixed clip extension; `"A/B C"` sanitizes to
`"A_B_C"`. -/
theorem claim_C7 (today : Str) (segs : List Segment) :
    ((planJobs today segs).map CutJob.filename =
      (segs.filter (fun s => decide (0 < durOf s))).map
        (fun s =>
          s.event_id.map
              (fun c => if isWordChar c || c == '-' || c == '_' || c == '.' then c
                        else '_')
            ++ '_' :: (today ++ '.' :: "mp4".data))) ∧
    safeEventId ("A/B C".data) = "A_B_C".data := by
  constructor
  · rw [planJobs_eq, List.map_map]
    congr 1
  · decide

/-- Claim C8: when the input video path does not exist the run fails
immediately with the input-not-found error, no output directory is
created and no analyzer call is made (the effect trace is empty). -/
theorem claim_C8 (env : Env) (h : env.inputExists = false) :
    splitVideo env = (RunOutcome.fatal SplitError.inputNotFound, []) ∧
      Effect.mkdirE ∉ (splitVideo env).2 ∧
      Effect.analyzeE ∉ (splitVideo env).2 := by
  have hs : splitVideo env = (RunOutcome.fatal SplitError.inputNotFound, []) := by
    unfold splitVideo
    rw [h]
    rfl
  refine ⟨hs, ?_, ?_⟩ <;> rw [hs] <;> simp

/-- Witness for C8 at a concrete environment with a missing input. -/
theorem claim_C8_witness :
    envC8.inputExists = false ∧
      splitVideo envC8 = (RunOutcome.fatal SplitError.inputNotFound, []) :=
  ⟨rfl, (claim_C8 envC8 rfl).1⟩

/-- Counterexample to claim C9 as stated: `"00:-5"` has a field
denoting a negative number, yet parsing returns `-5`, not the
zero-seconds fallback. -/
theorem claim_C9_counterexample :
    timeToSeconds ("00:-5".data) = -5 ∧ ¬ timeToSeconds ("00:-5".data) = 0 := by
  constructor <;> decide

/-- Claim C9 amended: timecode fields are parsed with Python `int`
semantics, which accept a leading sign, so a 2-field timecode with a
negative field yields the signed arithmetic value (possibly negative)
rather than the zero-seconds fallback: `parse("00:-5") = -5` and
`parse("-1:30") = -30`. -/
theorem claim_C9_amended :
    timeToSeconds ("00:-5".data) = -5 ∧ timeToSeconds ("-1:30".data) = -30 ∧
      pyInt ("-5".data) = some (-5) ∧ pyInt ("-1".data) = some (-1) := by
  refine ⟨?_, ?_, ?_, ?_⟩ <;> decide

/-- Claim C10: if writing the manifest CSV raises, the run still
returns a successful result whose manifest-path field is empty, all
other result fields unchanged with respect to the same run with a
working manifest write. -/
theorem claim_C10 (env : Env) (resp : Str)
    (ha : env.analyzerReply = AnalyzerReply.text resp)
    (h1 : env.inputExists = true) (h2 : env.mkdirOk = true)
    (h3 : env.promptAvailable = true)
    (h4 : (parseCsvResponse resp).isEmpty = false)
    (h5 : env.csvWriteOk = false) :
    ∃ res : RunResult,
      (splitVideo { env with csvWriteOk := true }).1 = RunOutcome.success res ∧
        (splitVideo env).1 = RunOutcome.success { res with csv_file := [] } := by
  refine ⟨{ input_file := env.inputPath, output_directory := env.outputDir,
            segments_count := (parseCsvResponse resp).length,
            split_files :=
              (splitLoopT env.today env.outputDir env.cutter 0 (parseCsvResponse resp)).1,
            csv_file := saveSegmentsToCsv { env with csvWriteOk := true },
            segments := parseCsvResponse resp }, ?_, ?_⟩
  · simp [splitVideo, h1, h2, h3, ha, h4]
  · simp [splitVideo, h1, h2, h3, ha, h4, saveSegmentsToCsv, h5]

/-- Witness for C10 at a concrete environment whose manifest write
fails. -/
theorem claim_C10_witness :
    (parseCsvResponse respC10).isEmpty = false ∧
      ∃ res : RunResult,
        (splitVideo { envC10 with csvWriteOk := true }).1 = RunOutcome.success res ∧
          (splitVideo envC10).1 = RunOutcome.success { res with csv_file := [] } :=
  ⟨by decide, claim_C10 envC10 respC10 rfl rfl rfl rfl (by decide) rfl⟩

end VideoSplitter
